import Mathlib

/-!
Verification of the Claude execution module (`solve.claude-execution.lib.mjs`
and its command-stream variant) of the hive-mind repository.

Strings are modelled as `List Char`.  JavaScript values decoded from the
child's JSON-lines output are modelled by `JVal`, and `JSON.parse` by an
executable recursive-descent parser `jsonParse` over the JSON grammar.
-/

/-- A JavaScript value produced by `JSON.parse`.  Numbers keep their raw
literal text: no claim depends on numeric value semantics, only on parse
success and on JavaScript truthiness (zero iff no digit 1-9 occurs). -/
inductive JVal where
  | jnull
  | jbool (b : Bool)
  | jnum (raw : List Char)
  | jstr (s : List Char)
  | jarr (elems : List JVal)
  | jobj (fields : List (List Char × JVal))

/-- JSON insignificant whitespace. -/
def jsonWs (c : Char) : Bool :=
  c = ' ' || c = '\t' || c = '\n' || c = '\r'

/-- Drop leading JSON whitespace. -/
def skipWs : List Char → List Char
  | [] => []
  | c :: cs => if jsonWs c then skipWs cs else c :: cs

/-- Hexadecimal digit value. -/
def hexVal (c : Char) : Option Nat :=
  if '0' ≤ c ∧ c ≤ '9' then some (c.toNat - '0'.toNat)
  else if 'a' ≤ c ∧ c ≤ 'f' then some (c.toNat - 'a'.toNat + 10)
  else if 'A' ≤ c ∧ c ≤ 'F' then some (c.toNat - 'A'.toNat + 10)
  else none

/-- Single-character JSON string escapes. -/
def escChar (c : Char) : Option Char :=
  if c = '"' then some '"'
  else if c = '\\' then some '\\'
  else if c = '/' then some '/'
  else if c = 'b' then some '\x08'
  else if c = 'f' then some '\x0c'
  else if c = 'n' then some '\n'
  else if c = 'r' then some '\r'
  else if c = 't' then some '\t'
  else none

/-- Parse the body of a JSON string after the opening quote; returns the
decoded content and the remaining input after the closing quote. -/
def parseStringBody : List Char → Option (List Char × List Char)
  | [] => none
  | c :: cs =>
    if c = '"' then some ([], cs)
    else if c = '\\' then
      match cs with
      | [] => none
      | e :: cs2 =>
        if e = 'u' then
          match cs2 with
          | h1 :: h2 :: h3 :: h4 :: cs3 =>
            match hexVal h1, hexVal h2, hexVal h3, hexVal h4 with
            | some a, some b, some c2, some d =>
              match parseStringBody cs3 with
              | some (rest, rem) =>
                some (Char.ofNat (((a * 16 + b) * 16 + c2) * 16 + d) :: rest, rem)
              | none => none
            | _, _, _, _ => none
          | _ => none
        else
          match escChar e with
          | some ec =>
            match parseStringBody cs2 with
            | some (rest, rem) => some (ec :: rest, rem)
            | none => none
          | none => none
    else if c.toNat < 32 then none
    else
      match parseStringBody cs with
      | some (rest, rem) => some (c :: rest, rem)
      | none => none

def isDigitCh (c : Char) : Bool := '0' ≤ c && c ≤ '9'

/-- Longest leading run of decimal digits. -/
def takeDigits : List Char → List Char × List Char
  | [] => ([], [])
  | c :: cs =>
    if isDigitCh c then
      let (d, r) := takeDigits cs
      (c :: d, r)
    else ([], c :: cs)

/-- Optional fraction part of a JSON number. -/
def parseFrac : List Char → Option (List Char × List Char)
  | '.' :: r =>
    let (d, r2) := takeDigits r
    if d.isEmpty then none else some ('.' :: d, r2)
  | s => some ([], s)

/-- Optional exponent part of a JSON number. -/
def parseExp : List Char → Option (List Char × List Char)
  | [] => some ([], [])
  | c :: r =>
    if c = 'e' ∨ c = 'E' then
      let (sg, r1) :=
        match r with
        | '+' :: t => (['+'], t)
        | '-' :: t => (['-'], t)
        | _ => (([] : List Char), r)
      let (d, r2) := takeDigits r1
      if d.isEmpty then none else some (c :: (sg ++ d), r2)
    else some ([], c :: r)

/-- Parse a JSON number literal, returning the raw text consumed. -/
def parseNumber (s : List Char) : Option (List Char × List Char) :=
  let (sign, s1) :=
    match s with
    | '-' :: r => ((['-'] : List Char), r)
    | _ => (([] : List Char), s)
  let (ip, s2) := takeDigits s1
  match ip with
  | [] => none
  | '0' :: _ :: _ => none
  | _ =>
    match parseFrac s2 with
    | none => none
    | some (fp, s3) =>
      match parseExp s3 with
      | none => none
      | some (ep, s4) => some (sign ++ ip ++ fp ++ ep, s4)

mutual

/-- Fueled recursive-descent parser for one JSON value. -/
def parseVal : Nat → List Char → Option (JVal × List Char)
  | 0, _ => none
  | fuel + 1, s =>
    match skipWs s with
    | 'n' :: 'u' :: 'l' :: 'l' :: r => some (.jnull, r)
    | 't' :: 'r' :: 'u' :: 'e' :: r => some (.jbool true, r)
    | 'f' :: 'a' :: 'l' :: 's' :: 'e' :: r => some (.jbool false, r)
    | '"' :: r =>
      match parseStringBody r with
      | some (str, rem) => some (.jstr str, rem)
      | none => none
    | '[' :: r =>
      (match skipWs r with
       | ']' :: r2 => some (.jarr [], r2)
       | _ => parseElems fuel r [])
    | '\x7b' :: r =>
      (match skipWs r with
       | '\x7d' :: r2 => some (.jobj [], r2)
       | _ => parseMembers fuel r [])
    | s2 =>
      match parseNumber s2 with
      | some (raw, rem) => some (.jnum raw, rem)
      | none => none

/-- Array elements, comma separated, closed by a bracket. -/
def parseElems : Nat → List Char → List JVal → Option (JVal × List Char)
  | 0, _, _ => none
  | fuel + 1, s, acc =>
    match parseVal fuel s with
    | none => none
    | some (v, rem) =>
      match skipWs rem with
      | ',' :: r2 => parseElems fuel r2 (v :: acc)
      | ']' :: r2 => some (.jarr (v :: acc).reverse, r2)
      | _ => none

/-- Object members, comma separated, closed by a brace. -/
def parseMembers : Nat → List Char → List (List Char × JVal) →
    Option (JVal × List Char)
  | 0, _, _ => none
  | fuel + 1, s, acc =>
    match skipWs s with
    | '"' :: r =>
      match parseStringBody r with
      | none => none
      | some (key, rem) =>
        match skipWs rem with
        | ':' :: r2 =>
          match parseVal fuel r2 with
          | none => none
          | some (v, rem2) =>
            match skipWs rem2 with
            | ',' :: r3 => parseMembers fuel r3 ((key, v) :: acc)
            | '\x7d' :: r3 => some (.jobj ((key, v) :: acc).reverse, r3)
            | _ => none
        | _ => none
    | _ => none

end

/-- Model of JavaScript `JSON.parse`: parse one value, allow surrounding
whitespace, reject trailing input; `none` models a thrown `SyntaxError`. -/
def jsonParse (s : List Char) : Option JVal :=
  match parseVal (2 * s.length + 2) s with
  | some (v, rem) => if (skipWs rem).isEmpty then some v else none
  | none => none

/-- Property access `v.name` on a parsed value: defined only on objects,
`none` models JavaScript `undefined`.  With duplicate keys `JSON.parse`
keeps the last occurrence, hence the left fold. -/
def getFieldJS (v : JVal) (name : List Char) : Option JVal :=
  match v with
  | .jobj fields =>
    fields.foldl (fun acc kv => if kv.1 = name then some kv.2 else acc) none
  | _ => none

/-- JavaScript truthiness of a parsed value.  A JSON number denotes zero
iff its literal has no digit 1-9 (floating-point underflow of tiny
exponents is not modelled; no event field depends on it). -/
def jsTruthy : JVal → Bool
  | .jnull => false
  | .jbool b => b
  | .jnum raw => raw.any (fun c => '1' ≤ c && c ≤ '9')
  | .jstr s => !s.isEmpty
  | .jarr _ => true
  | .jobj _ => true

/-- Truthiness of `data.name` (missing field = `undefined` = falsy). -/
def fieldTruthy (v : JVal) (name : List Char) : Bool :=
  match getFieldJS v name with
  | some w => jsTruthy w
  | none => false

/-- Strict equality `data.name === lit` against a string literal. -/
def fieldEqStr (v : JVal) (name lit : List Char) : Bool :=
  match getFieldJS v name with
  | some (.jstr s) => s = lit
  | _ => false

/-- JSON escape of one character, as produced by `JSON.stringify`. -/
def stringifyEsc (c : Char) : List Char :=
  if c = '"' then ['\\', '"']
  else if c = '\\' then ['\\', '\\']
  else if c = '\n' then ['\\', 'n']
  else if c = '\r' then ['\\', 'r']
  else if c = '\t' then ['\\', 't']
  else if c = '\x08' then ['\\', 'b']
  else if c = '\x0c' then ['\\', 'f']
  else if c.toNat < 32 then
    ['\\', 'u', '0', '0',
     (if c.toNat / 16 < 10 then Char.ofNat ('0'.toNat + c.toNat / 16)
      else Char.ofNat ('a'.toNat + c.toNat / 16 - 10)),
     (if c.toNat % 16 < 10 then Char.ofNat ('0'.toNat + c.toNat % 16)
      else Char.ofNat ('a'.toNat + c.toNat % 16 - 10))]
  else [c]

mutual

/-- Model of `JSON.stringify` on parsed values (fields keep stored order). -/
def jsonStringify : JVal → List Char
  | .jnull => ['n', 'u', 'l', 'l']
  | .jbool true => ['t', 'r', 'u', 'e']
  | .jbool false => ['f', 'a', 'l', 's', 'e']
  | .jnum raw => raw
  | .jstr s => '"' :: (s.map stringifyEsc).flatten ++ ['"']
  | .jarr xs => '[' :: stringifyElems xs ++ [']']
  | .jobj fs => '\x7b' :: stringifyFields fs ++ ['\x7d']

def stringifyElems : List JVal → List Char
  | [] => []
  | [v] => jsonStringify v
  | v :: vs => jsonStringify v ++ ',' :: stringifyElems vs

def stringifyFields : List (List Char × JVal) → List Char
  | [] => []
  | [(k, v)] => '"' :: (k.map stringifyEsc).flatten ++ '"' :: ':' :: jsonStringify v
  | (k, v) :: fs =>
    '"' :: (k.map stringifyEsc).flatten ++ '"' :: ':' :: jsonStringify v
      ++ ',' :: stringifyFields fs

end

/-- Substring test, JavaScript `String.prototype.includes`. -/
def isSubstr (pat s : List Char) : Bool :=
  s.tails.any (fun t => pat.isPrefixOf t)

/-- `!line.trim()`: the line is empty or entirely whitespace (ASCII
whitespace; the source's `trim` also strips rare Unicode spaces, which do
not occur in the inputs considered). -/
def allWs (l : List Char) : Bool :=
  l.all (fun c => c = ' ' || c = '\t' || c = '\n' || c = '\r'
                  || c = '\x0b' || c = '\x0c')

/-- `lastMessage.includes(pat)`.  On the stream-json protocol the
`text`/`error` fields are strings, so `lastMessage` always holds a string
when the classifier reads it; non-string values are outside the modelled
protocol. -/
def jsIncludes (v : JVal) (pat : List Char) : Bool :=
  match v with
  | .jstr s => isSubstr pat s
  | _ => false

/-! ## Run state and the per-line decode/fold path

Embedding of the state-relevant behaviour of `executeClaudeCommand` in
`src/solve.claude-execution.lib.mjs` (spawn implementation).  Logging is an
external side effect with no state influence and is omitted. -/

/-- The mutable accumulator of one run: `sessionId`, `messageCount`,
`toolUseCount`, `lastMessage` (initialised `null, 0, 0, ''`). -/
structure RunState where
  sessionId : Option JVal
  messageCount : Nat
  toolUseCount : Nat
  lastMessage : JVal

def initRunState : RunState :=
  { sessionId := none, messageCount := 0, toolUseCount := 0,
    lastMessage := .jstr [] }

def keyType : List Char := ['t', 'y', 'p', 'e']
def keySession : List Char :=
  ['s', 'e', 's', 's', 'i', 'o', 'n', '_', 'i', 'd']
def keyText : List Char := ['t', 'e', 'x', 't']
def keyError : List Char := ['e', 'r', 'r', 'o', 'r']
def tagMessage : List Char := ['m', 'e', 's', 's', 'a', 'g', 'e']
def tagToolUse : List Char := ['t', 'o', 'o', 'l', '_', 'u', 's', 'e']
def tagText : List Char := ['t', 'e', 'x', 't']
def tagError : List Char := ['e', 'r', 'r', 'o', 'r']

/-- `!sessionId`: the session variable is still unset (it starts `null`;
every assigned value is truthy by the assignment guard). -/
def sessUnset (cur : Option JVal) : Bool :=
  match cur with
  | none => true
  | some v => !jsTruthy v

/-- `data.error || JSON.stringify(data)`. -/
def errOrStringify (data : JVal) : JVal :=
  match getFieldJS data keyError with
  | some v => if jsTruthy v then v else .jstr (jsonStringify data)
  | none => .jstr (jsonStringify data)

/-- `if (!sessionId && data.session_id) sessionId = data.session_id`:
capture the session id from the first event carrying a truthy one. -/
def stepSession (st : RunState) (data : JVal) : RunState :=
  if sessUnset st.sessionId && fieldTruthy data keySession then
    { st with sessionId := getFieldJS data keySession }
  else st

/-- Count `message` events, else `tool_use` events. -/
def stepCounts (st : RunState) (data : JVal) : RunState :=
  if fieldEqStr data keyType tagMessage then
    { st with messageCount := st.messageCount + 1 }
  else if fieldEqStr data keyType tagToolUse then
    { st with toolUseCount := st.toolUseCount + 1 }
  else st

/-- The display chain's state effect: `text` events with truthy text and
`error` events overwrite `lastMessage` (the other arms only log). -/
def stepLast (st : RunState) (data : JVal) : RunState :=
  if fieldEqStr data keyType tagText then
    match getFieldJS data keyText with
    | some v => if jsTruthy v then { st with lastMessage := v } else st
    | none => st
  else if fieldEqStr data keyType tagError then
    { st with lastMessage := errOrStringify data }
  else st

/-- State effect of one successfully parsed event (the `try` body of the
stdout line loop), in source order: session capture, counters,
`lastMessage`. -/
def stepEvent (st : RunState) (data : JVal) : RunState :=
  stepLast (stepCounts (stepSession st data) data) data

def nodeInternalMark : List Char :=
  ['n', 'o', 'd', 'e', ':', 'i', 'n', 't', 'e', 'r', 'n', 'a', 'l']

/-- One iteration of the stdout line loop: skip blank lines, decode JSON
and fold via `stepEvent`; on parse failure fall back to a raw line that
updates `lastMessage` unless it matches the diagnostic denylist. -/
def stepLine (st : RunState) (line : List Char) : RunState :=
  if allWs line then st
  else
    match jsonParse line with
    | some data => stepEvent st data
    | none =>
      if !allWs line && !isSubstr nodeInternalMark line then
        { st with lastMessage := .jstr line }
      else st

/-- The `close` handler's flush of the residual stdout buffer: when the
trimmed buffer is non-empty, parse it and handle only `text` and `error`
events, else fall back to the raw-line path. -/
def flushClose (st : RunState) (buf : List Char) : RunState :=
  if allWs buf then st
  else
    match jsonParse buf with
    | some data =>
      if fieldEqStr data keyType tagText then
        match getFieldJS data keyText with
        | some v => if jsTruthy v then { st with lastMessage := v } else st
        | none => st
      else if fieldEqStr data keyType tagError then
        { st with lastMessage := errOrStringify data }
      else st
    | none =>
      if !allWs buf && !isSubstr nodeInternalMark buf then
        { st with lastMessage := .jstr buf }
      else st

/-! ## Line framer

The stdout `data` handler appends the chunk to `stdoutBuffer`, splits on
newline, pops the last (possibly incomplete) piece back into the buffer
and emits the complete lines. -/

/-- JavaScript `s.split('\n')`: always non-empty, one piece more than the
number of newlines. -/
def splitNl : List Char → List (List Char)
  | [] => [[]]
  | c :: cs =>
    if c = '\n' then [] :: splitNl cs
    else
      match splitNl cs with
      | [] => [[c]]
      | l :: ls => (c :: l) :: ls

/-- Last element of a split (the piece `lines.pop() || ''` keeps). -/
def lastD (l : List (List Char)) : List Char := l.getLastD []

/-- One stdout `data` event: returns the complete lines emitted and the
new residual buffer. -/
def feedChunk (buf chunk : List Char) : List (List Char) × List Char :=
  let parts := splitNl (buf ++ chunk)
  (parts.dropLast, lastD parts)

/-- The whole stream of `data` events, from a given residual buffer:
all complete lines emitted, in order, with the final residual buffer. -/
def framerRun (buf : List Char) : List (List Char) → List (List Char) × List Char
  | [] => ([], buf)
  | ch :: rest =>
    let parts := splitNl (buf ++ ch)
    let out := framerRun (lastD parts) rest
    (parts.dropLast ++ out.1, out.2)

/-- Joining the split pieces back with newlines. -/
def joinNl : List (List Char) → List Char
  | [] => []
  | [l] => l
  | l :: ls => l ++ '\n' :: joinNl ls

/-! ## Outcome classification and result assembly -/

/-- The returned result.  The source returns exactly these five fields at
every return site (exit code and signal are logged, not returned). -/
structure RunResult where
  success : Bool
  sessionId : Option JVal
  limitReached : Bool
  messageCount : Nat
  toolUseCount : Nat

/-- Exit status reported by the `close`/`exit` handlers: `code` is `null`
when the child was terminated by a signal. -/
structure CommandResult where
  code : Option Int
  signal : Option (List Char)

def phraseRate1 : List Char := "rate_limit_exceeded".toList
def phraseRate2 : List Char := "You have exceeded your rate limit".toList
def phraseRate3 : List Char := "rate limit".toList
def phraseCtx : List Char := "context_length_exceeded".toList

/-- The rate-limit check over `lastMessage`. -/
def rateLimitHit (m : JVal) : Bool :=
  jsIncludes m phraseRate1 || jsIncludes m phraseRate2 || jsIncludes m phraseRate3

/-- Lines 240-300 of the spawn implementation: classify the exit status
and assemble the returned result.  `limitReached` is set only inside the
non-zero-exit branch; the `signal` is only used for a log line. -/
def finishRun (code : Option Int) (signal : Option (List Char))
    (lastMessage : JVal) (sessionId : Option JVal)
    (messageCount toolUseCount : Nat) : RunResult :=
  let _ := signal
  if code ≠ some 0 then
    { success := false, sessionId := sessionId,
      limitReached := rateLimitHit lastMessage,
      messageCount := messageCount, toolUseCount := toolUseCount }
  else
    { success := true, sessionId := sessionId, limitReached := false,
      messageCount := messageCount, toolUseCount := toolUseCount }

/-- The tail of the spawn implementation (`try/catch` around
`executeCommand()` and everything after): given the awaited outcome of the
child (`.error` = the promise rejected, from the child's `error` event)
and the state the stream handlers accumulated, produce the result.
`.error` on the outside would model an exception escaping to the caller;
the `catch` converts every rejection into a returned failure result. -/
def executeSpawnTail (outcome : Except (List Char) CommandResult)
    (sessionId : Option JVal) (messageCount toolUseCount : Nat)
    (lastMessage : JVal) : Except (List Char) RunResult :=
  match outcome with
  | .error _e =>
    .ok { success := false, sessionId := sessionId, limitReached := false,
          messageCount := messageCount, toolUseCount := toolUseCount }
  | .ok cr =>
    .ok (finishRun cr.code cr.signal lastMessage sessionId
          messageCount toolUseCount)

/-! ## The command-stream implementation (unnamed module)

The alternative `executeClaudeCommand` drives the child through a
command-stream primitive `$`.  Before any execution it throws when `$` is
unavailable or not a function, and rethrows a failure to create the
command stream; only the awaited execution itself is guarded by
`try/catch`.  The non-async-iterable ("buffered") path splits the whole
captured stdout at once and folds the same per-line decode path. -/

/-- What the destructured `$` parameter is at run time. -/
inductive DollarVal where
  | undef
  | nonFunc
  | func

/-- Whole-buffer result of awaiting the command stream. -/
structure CSResult where
  code : Option Int
  stdout : Option (List Char)
  stderr : Option (List Char)

def csMsgUnavailable : List Char :=
  "Command stream ($) is not available".toList
def csMsgNotFunction : List Char :=
  "Command stream ($) is not a function".toList
def csMsgCreateFail : List Char :=
  "Failed to create command stream: ".toList

/-- Buffered-path line processing: `result.stdout.split('\n')` filtered to
lines with non-blank trim, folded through the shared per-line path. -/
def processBuffered (stdout : List Char) : RunState :=
  ((splitNl stdout).filter (fun l => !allWs l)).foldl stepLine initRunState

/-- The command-stream `executeClaudeCommand` on its buffered path
(taken when the stream is not async-iterable).  `.error` models an
exception thrown past the function's boundary: the `$` availability
checks throw, a stream-creation failure is rethrown wrapped, and only
the awaited execution is converted into a failure result by its
`catch`.  The classification code is line-for-line the same as in the
spawn implementation, hence the shared `finishRun` (no signal is read
on this path). -/
def executeCSBuffered (dollar : DollarVal)
    (creation : Except (List Char) Unit)
    (execResult : Except (List Char) CSResult) :
    Except (List Char) RunResult :=
  match dollar with
  | .undef => .error csMsgUnavailable
  | .nonFunc => .error csMsgNotFunction
  | .func =>
    match creation with
    | .error m => .error (csMsgCreateFail ++ m)
    | .ok _ =>
      match execResult with
      | .error _m =>
        .ok { success := false, sessionId := none, limitReached := false,
              messageCount := 0, toolUseCount := 0 }
      | .ok r =>
        let st :=
          match r.stdout with
          | some out => processBuffered out
          | none => initRunState
        .ok (finishRun r.code none st.lastMessage st.sessionId
              st.messageCount st.toolUseCount)

/-- The async-iteration path of the command-stream implementation
processes each chunk's stdout with `output.split('\n').filter(...)`,
with no residual buffer carried between chunks: the lines each chunk
contributes to the decode path. -/
def csIterLines (chunks : List (List Char)) : List (List Char) :=
  (chunks.map (fun ch => (splitNl ch).filter (fun l => !allWs l))).flatten

/-! ## Command construction in the spawn implementation

Lines 58-94: the escaped prompt and system prompt are spliced into a
single shell command string which is handed to `spawn('sh', ['-c', …])`. -/

/-- `claudeArgs` after the base flags and optional `--resume`. -/
def claudeArgsBase (model : List Char) (resume : Option (List Char)) :
    List Char :=
  let base :=
    "--output-format stream-json --verbose --dangerously-skip-permissions --model ".toList
      ++ model
  match resume with
  | some r => "--resume ".toList ++ r ++ (' ' :: base)
  | none => base

/-- `claudeArgs += \` -p "…" --append-system-prompt "…"\``. -/
def claudeArgsFull (model : List Char) (resume : Option (List Char))
    (escapedPrompt escapedSystemPrompt : List Char) : List Char :=
  claudeArgsBase model resume
    ++ " -p \"".toList ++ escapedPrompt
    ++ "\" --append-system-prompt \"".toList ++ escapedSystemPrompt
    ++ ['"']

/-- The string passed to `spawn('sh', ['-c', shellCommand])`. -/
def shellCommand (claudePath model : List Char) (resume : Option (List Char))
    (escapedPrompt escapedSystemPrompt : List Char) : List Char :=
  claudePath ++ (' ' :: claudeArgsFull model resume escapedPrompt
    escapedSystemPrompt) ++ " | jq -c .".toList

/-- Modelled from the spec: POSIX-shell field splitting of the `sh -c`
command line, restricted to the two constructs the counterexample needs —
unquoted spaces separate fields and double quotes group them.  `sh` itself
is an external collaborator; this conservative model under-approximates
its metacharacter handling (no `$(…)`, backslashes, single quotes), so any
structure change it exhibits is one the real shell exhibits as well. -/
def shFieldsAux (s : List Char) (inQ started : Bool) (cur : List Char) :
    List (List Char) :=
  match s with
  | [] => if started then [cur.reverse] else []
  | c :: rest =>
    if c = '"' then shFieldsAux rest (!inQ) true cur
    else if c = ' ' && !inQ then
      if started then cur.reverse :: shFieldsAux rest false false []
      else shFieldsAux rest false false []
    else shFieldsAux rest inQ true (c :: cur)

/-- The fields (words) of a shell command line, per the model above. -/
def shFields (s : List Char) : List (List Char) :=
  shFieldsAux s false false []
/-! ## Framer lemmas -/

/-- Apply a function to the first piece of a split. -/
def mapHead (f : List Char → List Char) : List (List Char) → List (List Char)
  | [] => []
  | h :: t => f h :: t

theorem splitNl_cons_nl (cs : List Char) :
    splitNl ('\n' :: cs) = [] :: splitNl cs := by
  simp [splitNl]

theorem splitNl_ne_nil (l : List Char) : splitNl l ≠ [] := by
  induction l with
  | nil => simp [splitNl]
  | cons c cs ih =>
    by_cases hc : c = '\n'
    · simp [splitNl, hc]
    · simp only [splitNl, if_neg hc]
      cases h : splitNl cs with
      | nil => simp
      | cons a as => simp

theorem splitNl_cons_ne (c : Char) (cs : List Char) (hc : c ≠ '\n') :
    splitNl (c :: cs) = mapHead (fun l => c :: l) (splitNl cs) := by
  simp only [splitNl, if_neg hc]
  cases h : splitNl cs with
  | nil => exact absurd h (splitNl_ne_nil cs)
  | cons a as => simp [mapHead]

theorem getLastD_of_ne_nil (l : List (List Char)) (h : l ≠ [])
    (d1 d2 : List Char) : l.getLastD d1 = l.getLastD d2 := by
  cases l with
  | nil => exact absurd rfl h
  | cons a as =>
    rw [List.getLastD_eq_getLast?, List.getLastD_eq_getLast?]
    cases hy : (a :: as).getLast? with
    | none => simp at hy
    | some y => simp

theorem lastD_cons (x : List Char) (l : List (List Char)) (h : l ≠ []) :
    lastD (x :: l) = lastD l := by
  cases l with
  | nil => exact absurd rfl h
  | cons a as =>
    show (x :: a :: as).getLastD [] = (a :: as).getLastD []
    rw [List.getLastD_cons]
    exact getLastD_of_ne_nil _ (by simp) x []

theorem mapHead_ne_nil (f : List Char → List Char) (l : List (List Char))
    (h : l ≠ []) : mapHead f l ≠ [] := by
  cases l with
  | nil => exact absurd rfl h
  | cons a as => simp [mapHead]

/-- Splitting an appended text: the first text's pieces, with its last
piece glued onto the first piece of the second text's split. -/
theorem splitNl_append (a b : List Char) :
    splitNl (a ++ b)
      = (splitNl a).dropLast
        ++ mapHead (fun h => lastD (splitNl a) ++ h) (splitNl b) := by
  induction a with
  | nil =>
    simp only [List.nil_append, splitNl, lastD, List.getLastD]
    cases h : splitNl b with
    | nil => exact absurd h (splitNl_ne_nil b)
    | cons x xs => simp [mapHead]
  | cons c cs ih =>
    by_cases hc : c = '\n'
    · subst hc
      rw [List.cons_append, splitNl_cons_nl, splitNl_cons_nl, ih,
        List.dropLast_cons_of_ne_nil (splitNl_ne_nil cs),
        lastD_cons _ _ (splitNl_ne_nil cs)]
      simp
    · rw [List.cons_append, splitNl_cons_ne c (cs ++ b) hc, ih,
        splitNl_cons_ne c cs hc]
      cases h : splitNl cs with
      | nil => exact absurd h (splitNl_ne_nil cs)
      | cons s ss =>
        cases ss with
        | nil =>
          cases hb : splitNl b with
          | nil => exact absurd hb (splitNl_ne_nil b)
          | cons x xs => simp [mapHead, lastD]
        | cons s2 rest =>
          simp [mapHead, lastD, List.getLastD_cons]

theorem mapHead_mapHead (f g : List Char → List Char)
    (l : List (List Char)) :
    mapHead f (mapHead g l) = mapHead (fun t => f (g t)) l := by
  cases l <;> simp [mapHead]

theorem splitNl_eq_single (l : List Char) (h : '\n' ∉ l) :
    splitNl l = [l] := by
  induction l with
  | nil => rfl
  | cons c cs ih =>
    have hc : c ≠ '\n' := fun e => h (e ▸ List.mem_cons_self c cs)
    rw [splitNl_cons_ne c cs hc, ih (fun m => h (List.mem_cons_of_mem c m))]
    rfl

theorem splitNl_prepend_nonl (a x : List Char) (h : '\n' ∉ a) :
    splitNl (a ++ x) = mapHead (fun t => a ++ t) (splitNl x) := by
  induction a with
  | nil =>
    cases hx : splitNl x with
    | nil => exact absurd hx (splitNl_ne_nil x)
    | cons p ps => simp [mapHead, hx]
  | cons c a2 ih =>
    have hc : c ≠ '\n' := fun e => h (e ▸ List.mem_cons_self c a2)
    rw [List.cons_append, splitNl_cons_ne c (a2 ++ x) hc,
      ih (fun m => h (List.mem_cons_of_mem c m)), mapHead_mapHead]
    rfl

theorem splitNl_pieces_no_nl (l : List Char) :
    ∀ p ∈ splitNl l, '\n' ∉ p := by
  induction l with
  | nil =>
    intro p hp
    simp [splitNl] at hp
    simp [hp]
  | cons c cs ih =>
    by_cases hc : c = '\n'
    · subst hc
      rw [splitNl_cons_nl]
      intro p hp
      rcases List.mem_cons.mp hp with h1 | h2
      · simp [h1]
      · exact ih p h2
    · rw [splitNl_cons_ne c cs hc]
      cases hs : splitNl cs with
      | nil => exact absurd hs (splitNl_ne_nil cs)
      | cons q qs =>
        intro p hp
        rcases List.mem_cons.mp hp with h1 | h2
        · subst h1
          intro hm
          rcases List.mem_cons.mp hm with h3 | h4
          · exact hc h3.symm
          · exact ih q (hs ▸ List.mem_cons_self q qs) h4
        · exact ih p (hs ▸ List.mem_cons_of_mem q h2)

theorem lastD_mem (l : List (List Char)) (h : l ≠ []) : lastD l ∈ l := by
  induction l with
  | nil => exact absurd rfl h
  | cons a as ih =>
    cases as with
    | nil => simp [lastD, List.getLastD_cons]
    | cons b bs =>
      rw [lastD_cons _ _ (by simp)]
      exact List.mem_cons_of_mem _ (ih (by simp))

theorem lastD_append (xs ys : List (List Char)) (h : ys ≠ []) :
    lastD (xs ++ ys) = lastD ys := by
  show (xs ++ ys).getLastD [] = ys.getLastD []
  rw [List.getLastD_eq_getLast?, List.getLastD_eq_getLast?,
    List.getLast?_append_of_ne_nil xs h]

/-- Closed form of the stdout framing loop: starting from a residual
buffer holding no newline, processing any chunk sequence emits exactly
the complete lines of `buffer ++ concatenation`, and retains its final
(possibly empty) piece as the new residual buffer. -/
theorem framerRun_closed (chunks : List (List Char)) :
    ∀ buf : List Char, '\n' ∉ buf →
      framerRun buf chunks
        = ((splitNl (buf ++ chunks.flatten)).dropLast,
           lastD (splitNl (buf ++ chunks.flatten))) := by
  induction chunks with
  | nil =>
    intro buf hb
    simp [framerRun, splitNl_eq_single buf hb, lastD, List.getLastD_cons]
  | cons ch rest ih =>
    intro buf hb
    have hlast : '\n' ∉ lastD (splitNl (buf ++ ch)) :=
      splitNl_pieces_no_nl (buf ++ ch) _
        (lastD_mem _ (splitNl_ne_nil (buf ++ ch)))
    have hQ : splitNl (lastD (splitNl (buf ++ ch)) ++ rest.flatten)
        = mapHead (fun t => lastD (splitNl (buf ++ ch)) ++ t)
            (splitNl rest.flatten) :=
      splitNl_prepend_nonl _ _ hlast
    have hkey : splitNl (buf ++ (ch :: rest).flatten)
        = (splitNl (buf ++ ch)).dropLast
          ++ splitNl (lastD (splitNl (buf ++ ch)) ++ rest.flatten) := by
      rw [List.flatten_cons, ← List.append_assoc, splitNl_append, hQ]
    have hQne : splitNl (lastD (splitNl (buf ++ ch)) ++ rest.flatten) ≠ [] :=
      splitNl_ne_nil _
    simp only [framerRun]
    rw [ih _ hlast, hkey,
      List.dropLast_append_of_ne_nil _ hQne, lastD_append _ _ hQne]

theorem joinNl_splitNl (l : List Char) : joinNl (splitNl l) = l := by
  induction l with
  | nil => rfl
  | cons c cs ih =>
    by_cases hc : c = '\n'
    · subst hc
      rw [splitNl_cons_nl]
      cases hs : splitNl cs with
      | nil => exact absurd hs (splitNl_ne_nil cs)
      | cons s ss =>
        rw [hs] at ih
        show joinNl ([] :: s :: ss) = '\n' :: cs
        simp [joinNl, ih]
    · rw [splitNl_cons_ne c cs hc]
      cases hs : splitNl cs with
      | nil => exact absurd hs (splitNl_ne_nil cs)
      | cons s ss =>
        rw [hs] at ih
        cases ss with
        | nil =>
          show joinNl [c :: s] = c :: cs
          simp only [joinNl] at ih ⊢
          rw [ih]
        | cons s2 rest =>
          show joinNl ((c :: s) :: s2 :: rest) = c :: cs
          simp only [joinNl] at ih ⊢
          rw [List.cons_append, ih]

theorem lastD_eq_getLast (l : List (List Char)) (h : l ≠ []) :
    lastD l = l.getLast h := by
  show l.getLastD [] = l.getLast h
  rw [List.getLastD_eq_getLast?, List.getLast?_eq_getLast l h]
  rfl

theorem dropLast_append_lastD (l : List (List Char)) (h : l ≠ []) :
    l.dropLast ++ [lastD l] = l := by
  rw [lastD_eq_getLast l h]
  exact List.dropLast_append_getLast h

/-! ## Session-id tracking lemmas -/

theorem stepCounts_sessionId (st : RunState) (d : JVal) :
    (stepCounts st d).sessionId = st.sessionId := by
  unfold stepCounts
  split
  · rfl
  · split
    · rfl
    · rfl

theorem stepLast_sessionId (st : RunState) (d : JVal) :
    (stepLast st d).sessionId = st.sessionId := by
  unfold stepLast
  split
  · split
    · split
      · rfl
      · rfl
    · rfl
  · split
    · rfl
    · rfl

theorem stepEvent_sessionId (st : RunState) (d : JVal) :
    (stepEvent st d).sessionId = (stepSession st d).sessionId := by
  unfold stepEvent
  rw [stepLast_sessionId, stepCounts_sessionId]

/-- The value an event contributes to the session id: its `session_id`
field when truthy, per the capture guard. -/
def sessionOf (data : JVal) : Option JVal :=
  match getFieldJS data keySession with
  | some v => if jsTruthy v then some v else none
  | none => none

/-- The specified session id of an event sequence: that of the first
event carrying a truthy (non-empty) `session_id`. -/
def firstSession : List JVal → Option JVal
  | [] => none
  | e :: es =>
    match sessionOf e with
    | some v => some v
    | none => firstSession es

theorem stepSession_of_set (st : RunState) (d : JVal) (v : JVal)
    (hv : jsTruthy v = true) (h : st.sessionId = some v) :
    (stepSession st d).sessionId = some v := by
  unfold stepSession
  rw [h]
  simp [sessUnset, hv, h]

theorem foldl_stepEvent_session_stable (events : List JVal) :
    ∀ (st : RunState) (v : JVal), jsTruthy v = true → st.sessionId = some v →
      (events.foldl stepEvent st).sessionId = some v := by
  induction events with
  | nil => intro st v _ h; simpa using h
  | cons e es ih =>
    intro st v hv h
    rw [List.foldl_cons]
    exact ih (stepEvent st e) v hv
      ((stepEvent_sessionId st e).trans (stepSession_of_set st e v hv h))

theorem foldl_stepEvent_session_of_none (events : List JVal) :
    ∀ st : RunState, st.sessionId = none →
      (events.foldl stepEvent st).sessionId = firstSession events := by
  induction events with
  | nil => intro st h; simpa [firstSession] using h
  | cons e es ih =>
    intro st h
    rw [List.foldl_cons]
    rcases hf : getFieldJS e keySession with _ | v
    · have hft : fieldTruthy e keySession = false := by
        simp [fieldTruthy, hf]
      have hstep : (stepEvent st e).sessionId = none := by
        rw [stepEvent_sessionId]
        unfold stepSession
        simp [hft, h]
      rw [ih _ hstep]
      simp [firstSession, sessionOf, hf]
    · by_cases hv : jsTruthy v = true
      · have hft : fieldTruthy e keySession = true := by
          simp [fieldTruthy, hf, hv]
        have hstep : (stepEvent st e).sessionId = some v := by
          rw [stepEvent_sessionId]
          unfold stepSession
          simp [hft, h, sessUnset, hf]
        rw [foldl_stepEvent_session_stable es _ v hv hstep]
        simp [firstSession, sessionOf, hf, hv]
      · have hft : fieldTruthy e keySession = false := by
          simp [fieldTruthy, hf]
          exact Bool.not_eq_true _ ▸ (by simpa using hv)
        have hstep : (stepEvent st e).sessionId = none := by
          rw [stepEvent_sessionId]
          unfold stepSession
          simp [hft, h]
        rw [ih _ hstep]
        simp [firstSession, sessionOf, hf, hv]

/-! ## Result-shape helpers -/

/-- The call returned a result (rather than raising). -/
def returnsOk (x : Except (List Char) RunResult) : Bool :=
  match x with
  | .ok _ => true
  | .error _ => false

/-- No returned result is simultaneously successful and rate-limited. -/
def noLimitOnSuccess (x : Except (List Char) RunResult) : Bool :=
  match x with
  | .ok r => !(r.success && r.limitReached)
  | .error _ => true

theorem finishRun_not_success_and_limit (code : Option Int)
    (sig : Option (List Char)) (lm : JVal) (sid : Option JVal)
    (mc tc : Nat) :
    ((finishRun code sig lm sid mc tc).success
      && (finishRun code sig lm sid mc tc).limitReached) = false := by
  by_cases h : code = some 0 <;> simp [finishRun, h]

/-! ## Concrete inputs used by the counterexamples and witnesses -/

/-- A complete stdout line carrying a `message` event. -/
def msgEventLine : List Char := "\x7b\"type\":\"message\"\x7d".toList

/-- The spec's truncated non-JSON stdout fragment. -/
def errFragment : List Char := "\x7b\"type\":\"err".toList

/-- A metacharacter-free escaped payload. -/
def benignPayload : List Char := "hello".toList

/-- An escaped payload whose double quotes close the `-p "…"` argument
and smuggle a new word into the command line. -/
def injPayload : List Char := "x\" --injected \"y".toList

def cmdWithBenign : List Char :=
  shellCommand "claude".toList "sonnet".toList none benignPayload "sys".toList

def cmdWithInj : List Char :=
  shellCommand "claude".toList "sonnet".toList none injPayload "sys".toList

/-! ## Claims -/

/-- C1: the claim says payload text is never string-interpolated into a
shell command line and that shell metacharacters in payload content
cannot alter the structure of the executed command.  The spawn
implementation violates this: the escaped payload is spliced verbatim
into the `sh -c` command string (first conjunct), and while a benign
payload reaches the child as the single field after `-p`, a payload
containing quotes and spaces does not arrive as one field and instead
injects the new word `--injected` into the command (remaining
conjuncts) — evaluating the embedded command constructor at the failing
input. -/
theorem c1_payload_interpolated_and_injectable :
    isSubstr injPayload cmdWithInj = true
  ∧ benignPayload ∈ shFields cmdWithBenign
  ∧ "--injected".toList ∉ shFields cmdWithBenign
  ∧ injPayload ∉ shFields cmdWithInj
  ∧ "--injected".toList ∈ shFields cmdWithInj := by
  refine ⟨by decide, by decide, by decide, by decide, by decide⟩

/-- C2, counterexample: the command-stream implementation raises past its
own boundary — with the `$` primitive undefined it throws
`Command stream ($) is not available` instead of returning a failure
result, refuting "for every input, executeClaudeCommand never raises an
exception past its own boundary" at a concrete input. -/
theorem c2_throws_counterexample :
    executeCSBuffered .undef (.ok ()) (.ok ⟨some 0, none, none⟩)
      = .error csMsgUnavailable := rfl

/-- C2, amended: in the spawn implementation `executeClaudeCommand`
never raises — every awaited outcome yields a returned result, and a
rejected child execution (spawn failure, stream error) is converted to a
`success = false` result; in the command-stream implementation the same
holds for a caught execution failure once the `$` primitive is a
function and stream creation succeeded. -/
theorem c2_no_raise_amended :
    (∀ (outcome : Except (List Char) CommandResult) (sid : Option JVal)
       (mc tc : Nat) (lm : JVal),
       returnsOk (executeSpawnTail outcome sid mc tc lm) = true)
  ∧ (∀ (e : List Char) (sid : Option JVal) (mc tc : Nat) (lm : JVal),
       executeSpawnTail (.error e) sid mc tc lm
         = .ok { success := false, sessionId := sid, limitReached := false,
                 messageCount := mc, toolUseCount := tc })
  ∧ (∀ m : List Char,
       executeCSBuffered .func (.ok ()) (.error m)
         = .ok { success := false, sessionId := none, limitReached := false,
                 messageCount := 0, toolUseCount := 0 }) := by
  refine ⟨fun outcome sid mc tc lm => ?_, fun e sid mc tc lm => rfl,
    fun m => rfl⟩
  cases outcome <;> rfl

/-- C3, counterexample: the async-iteration path of the command-stream
implementation splits each chunk independently with no carried buffer:
feeding `"ab"` as the two chunks `"a"`, `"b"` produces the two lines
`a` and `b`, while splitting the concatenated input yields no complete
line (and one line `ab` after the final flush) — refuting
chunk-boundary independence for that code path. -/
theorem c3_chunk_boundary_counterexample :
    csIterLines [['a'], ['b']] ≠ (splitNl (List.flatten [['a'], ['b']])).dropLast
  ∧ csIterLines [['a'], ['b']] ≠ splitNl (List.flatten [['a'], ['b']]) := by
  constructor
  · decide
  · decide

/-- C3, amended: in the spawn implementation the stdout framing is
chunk-boundary independent — for every byte sequence and every chunking,
the emitted complete lines are exactly the lines of the concatenated
input split on newline, the retained residual buffer is the final
(possibly incomplete) fragment, and re-joining the emitted lines with
the residual buffer restores the input byte-for-byte (no loss, no
duplication). -/
theorem c3_framer_amended :
    ∀ chunks : List (List Char),
      (framerRun [] chunks).1 = (splitNl chunks.flatten).dropLast
    ∧ (framerRun [] chunks).2 = lastD (splitNl chunks.flatten)
    ∧ joinNl ((framerRun [] chunks).1 ++ [(framerRun [] chunks).2])
        = chunks.flatten := by
  intro chunks
  have h := framerRun_closed chunks [] (by simp)
  rw [List.nil_append] at h
  refine ⟨by rw [h], by rw [h], ?_⟩
  rw [h]
  dsimp only
  rw [dropLast_append_lastD _ (splitNl_ne_nil _), joinNl_splitNl]

/-- C4: whenever the child exits with code 0, the returned result has
`success = true`, for every `lastMessage` content (including one
containing a rate-limit phrase), every session id and every counter
value: the exit-code check takes priority over all substring
classification. -/
theorem c4_exit_zero_success :
    ∀ (sig : Option (List Char)) (lm : JVal) (sid : Option JVal)
      (mc tc : Nat),
      (finishRun (some 0) sig lm sid mc tc).success = true := by
  intro sig lm sid mc tc
  rfl

/-- C5, counterexample: the drain-time flush is not the same decode/fold
path as the one used for complete lines — flushing the buffered complete
event `\x7b"type":"message"\x7d` leaves `messageCount` untouched, while
the per-line path increments it. -/
theorem c5_flush_differs_counterexample :
    (flushClose initRunState msgEventLine).messageCount
      ≠ (stepLine initRunState msgEventLine).messageCount := by
  decide

/-- C5, amended: on process exit the residual stdout buffer (stderr has
no buffered-line flush) is flushed through a reduced decode path that
agrees with the per-line path on non-JSON fragments: any unparseable,
non-blank buffer outside the diagnostic denylist is emitted as exactly
one raw event setting `lastMessage` to the fragment — identical to the
per-line raw fallback — while `success` is determined purely by the
exit code. -/
theorem c5_flush_amended :
    (∀ (st : RunState) (buf : List Char),
       (jsonParse buf).isNone = true → allWs buf = false →
       isSubstr nodeInternalMark buf = false →
       flushClose st buf = { st with lastMessage := .jstr buf }
       ∧ flushClose st buf = stepLine st buf)
  ∧ (∀ (code : Option Int) (sig : Option (List Char)) (lm : JVal)
       (sid : Option JVal) (mc tc : Nat),
       (finishRun code sig lm sid mc tc).success
         = decide (code = some 0)) := by
  constructor
  · intro st buf h1 h2 h3
    have hp : jsonParse buf = none := Option.isNone_iff_eq_none.mp h1
    constructor
    · simp [flushClose, hp, h2, h3]
    · simp [flushClose, stepLine, hp, h2, h3]
  · intro code sig lm sid mc tc
    by_cases h : code = some 0 <;> simp [finishRun, h]

/-- C5 witness: the spec's truncated fragment, flushed from the initial
state after an exit with code 0. -/
theorem c5_flush_amended_witness :
    ((jsonParse errFragment).isNone = true ∧ allWs errFragment = false
      ∧ isSubstr nodeInternalMark errFragment = false)
  ∧ flushClose initRunState errFragment
      = { initRunState with lastMessage := .jstr errFragment }
  ∧ (finishRun (some 0) none (.jstr errFragment) none 0 0).success
      = decide ((some 0 : Option Int) = some 0) :=
  ⟨⟨by decide, by decide, by decide⟩,
   (c5_flush_amended.1 initRunState errFragment (by decide) (by decide)
     (by decide)).1,
   c5_flush_amended.2 (some 0) none (.jstr errFragment) none 0 0⟩

/-- C6: when the child exits non-zero and `lastMessage` contains one
of the rate-limit phrase markers, the result is
`success = false, limitReached = true`. -/
theorem c6_rate_limited (code : Option Int) (sig : Option (List Char))
    (lm : List Char) (sid : Option JVal) (mc tc : Nat)
    (hc : code ≠ some 0) (hr : rateLimitHit (.jstr lm) = true) :
    (finishRun code sig (.jstr lm) sid mc tc).success = false
    ∧ (finishRun code sig (.jstr lm) sid mc tc).limitReached = true := by
  unfold finishRun
  rw [if_pos hc]
  exact ⟨rfl, hr⟩

/-- C6 witness: exit code 1 with the spec's last text
`Error: You have exceeded your rate limit`. -/
theorem c6_rate_limited_witness :
    ((some 1 : Option Int) ≠ some 0
      ∧ rateLimitHit
          (.jstr "Error: You have exceeded your rate limit".toList) = true)
  ∧ (finishRun (some 1) none
        (.jstr "Error: You have exceeded your rate limit".toList)
        none 0 0).success = false
  ∧ (finishRun (some 1) none
        (.jstr "Error: You have exceeded your rate limit".toList)
        none 0 0).limitReached = true :=
  ⟨⟨by decide, by decide⟩,
   (c6_rate_limited (some 1) none _ none 0 0 (by decide) (by decide)).1,
   (c6_rate_limited (some 1) none _ none 0 0 (by decide) (by decide)).2⟩

/-- C7: when the child exits non-zero, `lastMessage` contains the
context-overflow marker `context_length_exceeded` and no rate-limit
phrase marker, the result is `success = false, limitReached = false`
(context-exceeded, not rate-limited). -/
theorem c7_context_exceeded (code : Option Int) (sig : Option (List Char))
    (lm : List Char) (sid : Option JVal) (mc tc : Nat)
    (hc : code ≠ some 0)
    (hctx : jsIncludes (.jstr lm) phraseCtx = true)
    (hnr : rateLimitHit (.jstr lm) = false) :
    (finishRun code sig (.jstr lm) sid mc tc).success = false
    ∧ (finishRun code sig (.jstr lm) sid mc tc).limitReached = false := by
  unfold finishRun
  rw [if_pos hc]
  exact ⟨rfl, hnr⟩

/-- C7 witness: exit code 1 with last text `context_length_exceeded`. -/
theorem c7_context_exceeded_witness :
    ((some 1 : Option Int) ≠ some 0
      ∧ jsIncludes (.jstr phraseCtx) phraseCtx = true
      ∧ rateLimitHit (.jstr phraseCtx) = false)
  ∧ (finishRun (some 1) none (.jstr phraseCtx) none 0 0).success = false
  ∧ (finishRun (some 1) none (.jstr phraseCtx) none 0 0).limitReached
      = false :=
  ⟨⟨by decide, by decide, by decide⟩,
   (c7_context_exceeded (some 1) none phraseCtx none 0 0 (by decide)
     (by decide) (by decide)).1,
   (c7_context_exceeded (some 1) none phraseCtx none 0 0 (by decide)
     (by decide) (by decide)).2⟩

/-- C8, counterexample: the returned result does not contain the child's
exit code or exit signal — two runs differing only in exit code (3
versus 5) and signal (none versus SIGKILL) return identical results, so
no field of the result records them; the claim that every result
contains the exit code and signal is false at this input. -/
theorem c8_exit_code_not_in_result :
    finishRun (some 3) none (.jstr ['x']) none 0 0
      = finishRun (some 5) (some "SIGKILL".toList) (.jstr ['x']) none 0 0 :=
  rfl

/-- C8, amended: every returned result contains exactly the five fields
`success`, `sessionId`, `limitReached`, `messageCount`, `toolUseCount` —
the session id and counters passed through, success iff exit code 0,
`limitReached` per the rate-limit check on failure; the exit code and
exit signal are logged but not part of the result (any two non-zero exit
statuses, whatever their signals, yield identical results). -/
theorem c8_result_fields_amended :
    (∀ (code : Option Int) (sig : Option (List Char)) (lm : JVal)
       (sid : Option JVal) (mc tc : Nat),
       (finishRun code sig lm sid mc tc).sessionId = sid
       ∧ (finishRun code sig lm sid mc tc).messageCount = mc
       ∧ (finishRun code sig lm sid mc tc).toolUseCount = tc
       ∧ (finishRun code sig lm sid mc tc).success = decide (code = some 0)
       ∧ (finishRun code sig lm sid mc tc).limitReached
           = (!decide (code = some 0) && rateLimitHit lm))
  ∧ (∀ (code code2 : Option Int) (sig sig2 : Option (List Char))
       (lm : JVal) (sid : Option JVal) (mc tc : Nat),
       code ≠ some 0 → code2 ≠ some 0 →
       finishRun code sig lm sid mc tc = finishRun code2 sig2 lm sid mc tc)
    := by
  constructor
  · intro code sig lm sid mc tc
    by_cases h : code = some 0 <;> simp [finishRun, h]
  · intro code code2 sig sig2 lm sid mc tc h1 h2
    unfold finishRun
    rw [if_pos h1, if_pos h2]

/-- C8 witness: two concrete non-zero exit statuses. -/
theorem c8_result_fields_amended_witness :
    ((some 3 : Option Int) ≠ some 0 ∧ (some 5 : Option Int) ≠ some 0)
  ∧ finishRun (some 3) none (.jstr []) none 1 2
      = finishRun (some 5) (some "SIGTERM".toList) (.jstr []) none 1 2 :=
  ⟨⟨by decide, by decide⟩,
   c8_result_fields_amended.2 (some 3) (some 5) none
     (some "SIGTERM".toList) (.jstr []) none 1 2 (by decide) (by decide)⟩

/-- C9: over every sequence of decoded events, the session id the fold
ends with is exactly that of the first event carrying a truthy
(non-empty) `session_id`; later events — including ones carrying a
different non-empty value — cannot affect it. -/
theorem c9_session_first_wins :
    ∀ events : List JVal,
      (events.foldl stepEvent initRunState).sessionId
        = firstSession events :=
  fun events => foldl_stepEvent_session_of_none events initRunState rfl

/-- C10: no returned result is simultaneously successful and
rate-limited: `limitReached` is only ever set inside the non-zero-exit
branch, so `limitReached = true` implies `success = false` for the
classifier and for every return site of both implementations. -/
theorem c10_limit_implies_failure :
    (∀ (code : Option Int) (sig : Option (List Char)) (lm : JVal)
       (sid : Option JVal) (mc tc : Nat),
       ((finishRun code sig lm sid mc tc).success
         && (finishRun code sig lm sid mc tc).limitReached) = false)
  ∧ (∀ (outcome : Except (List Char) CommandResult) (sid : Option JVal)
       (mc tc : Nat) (lm : JVal),
       noLimitOnSuccess (executeSpawnTail outcome sid mc tc lm) = true)
  ∧ (∀ (dollar : DollarVal) (creation : Except (List Char) Unit)
       (execResult : Except (List Char) CSResult),
       noLimitOnSuccess (executeCSBuffered dollar creation execResult)
         = true) := by
  refine ⟨finishRun_not_success_and_limit, ?_, ?_⟩
  · intro outcome sid mc tc lm
    cases outcome with
    | error e => rfl
    | ok cr =>
      simp [executeSpawnTail, noLimitOnSuccess,
        finishRun_not_success_and_limit]
  · intro dollar creation execResult
    cases dollar with
    | undef => rfl
    | nonFunc => rfl
    | func =>
      cases creation with
      | error m => rfl
      | ok u =>
        cases execResult with
        | error m => rfl
        | ok r =>
          simp [executeCSBuffered, noLimitOnSuccess,
            finishRun_not_success_and_limit]
